import Mathlib

/-!
Verification of the Ebook-Chapter-Extractor chapter-discovery core.

A shallow embedding of the chapter-discovery pipeline of `src/app.js`
(class `PDFParser`, `parseEpubStructure`, `extractTextFromHtml`) together
with proofs about it.

Modelling conventions:

* A PDF document is a list of pages; a page that fails to load
  (`pdf.getPage` / `page.getTextContent` throwing) is modelled as `none`.
* Positioned text fragments (`textContent.items`) carry their string, the
  x/y entries of the transform (`transform[4]`, `transform[5]`) as
  integers (the source applies `Math.round` to the y coordinate before
  comparing), the height (used as font size) and width.
* JavaScript regular expressions used by the source are translated into
  explicit character-list matchers; each matcher's doc comment records the
  regex it embeds.  `\s` is modelled by `Char.isWhitespace` and `\w` by
  ASCII letters, digits and underscore, which agree with JavaScript on the
  ASCII inputs handled here.
* `String.toLower` stands in for `String.prototype.toLowerCase`; the two
  agree on ASCII data.
* The link-title clean-up of `getTextNearRect` (app.js lines 690-723), a
  display-only string post-processing step, is abstracted as an explicit
  function parameter `cleanTitle`; all theorems quantify over it.
-/

/-- Characters JavaScript counts in the class `[IVXLCDM]` (roman numerals). -/
def isRomanChar (c : Char) : Bool :=
  c == 'I' || c == 'V' || c == 'X' || c == 'L' || c == 'C' || c == 'D' || c == 'M'

/-- Characters in the JavaScript class `\w`, i.e. `[A-Za-z0-9_]`. -/
def isWordChar (c : Char) : Bool :=
  c.isAlpha || c.isDigit || c == '_'

/-- `occursIn needle hay`: JavaScript `hay.includes(needle)` on char lists. -/
def occursIn (needle : List Char) : List Char → Bool
  | [] => needle.isEmpty
  | c :: rest => needle.isPrefixOf (c :: rest) || occursIn needle rest

/-- `String.prototype.includes`. -/
def strOccursIn (needle hay : String) : Bool :=
  occursIn needle.toList hay.toList

/-- Lower-case a string character by character (`toLowerCase` on ASCII). -/
def sLower (s : String) : String :=
  String.mk (s.toList.map Char.toLower)

/-- Numeric value of a list of decimal digit characters (`parseInt`). -/
def natOfDigits (ds : List Char) : Nat :=
  ds.foldl (fun acc c => acc * 10 + (c.toNat - '0'.toNat)) 0

/-- `String.prototype.trim` (and Lean `String.trim`), written over the
character list so that it reduces definitionally. -/
def sTrim (s : String) : String :=
  String.mk
    (((s.toList.dropWhile Char.isWhitespace).reverse.dropWhile Char.isWhitespace).reverse)

/-- `Array.prototype.join(' ')`. -/
def joinSp : List String → String
  | [] => ""
  | [s] => s
  | s :: rest => s ++ " " ++ joinSp rest

/-- `String.prototype.startsWith`. -/
def sStartsWith (pre s : String) : Bool :=
  pre.toList.isPrefixOf s.toList

/-- `String.prototype.endsWith`. -/
def sEndsWith (suf s : String) : Bool :=
  suf.toList.reverse.isPrefixOf s.toList.reverse

/-- Case-insensitive string equality (regex `^(...)$` with the `i` flag). -/
def ciEq (a b : String) : Bool :=
  sLower a == sLower b

/-- Strip a case-insensitive literal prefix, returning the matched prefix
and the remainder.  Used for `/i`-flagged literal alternatives. -/
def stripPrefixCI : List Char → List Char → Option (List Char × List Char)
  | [], cs => some ([], cs)
  | _ :: _, [] => none
  | p :: ps, c :: cs =>
      if p.toLower == c.toLower then
        (stripPrefixCI ps cs).map (fun r => (c :: r.1, r.2))
      else none

/-- Strip a case-sensitive literal prefix, returning the remainder. -/
def stripPrefixCS : List Char → List Char → Option (List Char)
  | [], cs => some cs
  | _ :: _, [] => none
  | p :: ps, c :: cs => if p == c then stripPrefixCS ps cs else none

/-- Regex `/^(Chapter|CHAPTER)\s+\d+/i` of `extractChaptersFromOutline`:
case-insensitive `chapter`, one or more whitespace, a digit. -/
def matchChapterCI (s : String) : Bool :=
  match stripPrefixCI "chapter".toList s.toList with
  | none => false
  | some (_, rest) =>
      let ws := rest.takeWhile Char.isWhitespace
      let rest2 := rest.dropWhile Char.isWhitespace
      decide (ws ≠ []) &&
        (match rest2 with
         | c :: _ => c.isDigit
         | [] => false)

/-- Regex `/^\d+\.\d+/`: one or more digits, a dot, one or more digits. -/
def startsSubsec (s : String) : Bool :=
  let cs := s.toList
  let ds := cs.takeWhile Char.isDigit
  decide (ds ≠ []) &&
    (match cs.drop ds.length with
     | '.' :: rest => (match rest with
       | d :: _ => d.isDigit
       | [] => false)
     | _ => false)

/-- Regex `/^\d+\.?\s/`: a maximal digit run, an optional dot, then a
whitespace character (backtracking makes only the maximal run viable). -/
def matchBareNum (s : String) : Bool :=
  let cs := s.toList
  let ds := cs.takeWhile Char.isDigit
  decide (ds ≠ []) &&
    (match cs.drop ds.length with
     | ' ' :: _ => true
     | '\t' :: _ => true
     | '\n' :: _ => true
     | '\r' :: _ => true
     | '.' :: d :: _ => d.isWhitespace
     | _ => false)

/-- Regex `/^\d+$/`: a non-empty all-digit string. -/
def allDigits (s : String) : Bool :=
  decide (s.toList ≠ []) && s.toList.all Char.isDigit

/-- The canonical section names of
`/^(Introduction|Conclusion|Preface|Epilogue|Appendix|Bibliography|References|Index|Foreword|Acknowledgments)$/i`. -/
def specialSectionNames : List String :=
  ["Introduction", "Conclusion", "Preface", "Epilogue", "Appendix",
   "Bibliography", "References", "Index", "Foreword", "Acknowledgments"]

/-- Whole-title case-insensitive match against the canonical section names. -/
def isSpecialSection (t : String) : Bool :=
  specialSectionNames.any (fun n => ciEq n t)

/-! ## Data model -/

/-- One positioned text fragment of `textContent.items`. -/
structure TextItem where
  str : String
  x : Int
  y : Int
  height : Nat
deriving DecidableEq, Repr

/-- A link annotation as filtered by
`annotations.filter(ann => ann.subtype === 'Link' && ann.dest)`.
`dest = some none` means the destination exists but fails to resolve
(`getDestination` returns null or `getPageIndex` throws);
`dest = some (some p)` resolves to 0-based page index `p`. -/
structure LinkAnnot where
  subtypeLink : Bool
  dest : Option (Option Nat)
  url : Option String
  rect : Int × Int × Int × Int
deriving DecidableEq, Repr

/-- One loaded PDF page: its text fragments and its annotations. -/
structure PdfPage where
  items : List TextItem
  annots : List LinkAnnot
deriving DecidableEq, Repr

/-- A node of the embedded outline (bookmark) tree.  `dest = some none`
means the destination fails to resolve (the `catch` branch);
`dest = some (some p)` resolves to 0-based page index `p`. -/
inductive OutlineNode where
  | node (title : String) (dest : Option (Option Nat)) (children : List OutlineNode)

/-- A PDF document: pages (a failing `getPage`/`getTextContent` is `none`)
and the outline tree (`[]` models a null/empty `getOutline`). -/
structure PdfDoc where
  pages : List (Option PdfPage)
  outline : List OutlineNode

/-- `pdf.numPages`. -/
def PdfDoc.numPages (doc : PdfDoc) : Nat := doc.pages.length

/-- `pdf.getPage(n)` for 1-based `n`; `none` when the page is out of range
or its text content cannot be read. -/
def PdfDoc.getPage (doc : PdfDoc) (n : Nat) : Option PdfPage :=
  match doc.pages.getD (n - 1) none with
  | some pg => if 1 ≤ n then some pg else none
  | none => none

/-- A flattened outline entry (`allOutlineItems`). -/
structure FlatItem where
  title : String
  pageNumber : Nat
  level : Nat
  parentTitle : String
deriving DecidableEq, Repr

/-- A parsed TOC line (`tocEntries`): title and printed page number
(the source stores it in both `tocPageNum` and `pageNum`). -/
structure TocEntry where
  title : String
  printed : Nat
deriving DecidableEq, Repr

/-- Title and (possibly offset-adjusted) start page, just before the
final `endPage` pairing step shared by all stages. -/
structure PreChapter where
  title : String
  page : Int
deriving DecidableEq, Repr

/-- A discovered chapter (`{title, startPage, endPage}`); pages are `Int`
because TOC page offsets can push them outside `1..numPages`. -/
structure Chapter where
  title : String
  startPage : Int
  endPage : Int
deriving DecidableEq, Repr

/-- The final emission loop shared by every stage: each entry's `endPage`
is the next entry's `page - 1`, the last entry's is `lastPage`
(`nextChapter ? nextChapter.pageNum - 1 : numPages`). -/
def assemble (lastPage : Int) : List PreChapter → List Chapter
  | [] => []
  | [p] => [⟨p.title, p.page, lastPage⟩]
  | p :: q :: rest => ⟨p.title, p.page, q.page - 1⟩ :: assemble lastPage (q :: rest)

/-- Stable insertion step for ascending sort by `key`
(equal keys keep their original relative order). -/
def insertByKey (key : α → Int) (a : α) : List α → List α
  | [] => [a]
  | b :: rest => if key b < key a then b :: insertByKey key a rest else a :: b :: rest

/-- `Array.prototype.sort` with comparator `(a, b) => key a - key b`:
a stable ascending sort. -/
def sortByKey (key : α → Int) (l : List α) : List α :=
  l.foldr (insertByKey key) []

/-! ## PDF outline extractor (`extractChaptersFromOutline`) -/

mutual

/-- `flattenOutline`, one item: push the item itself when its destination
resolves (skipping it on resolution failure, the `catch` branch), then
recurse into `item.items` with `level + 1` and the item's title as parent. -/
def flattenNode (level : Nat) (parentTitle : String) : OutlineNode → List FlatItem
  | .node title dest children =>
      (match dest with
       | some (some p) => [⟨title, p + 1, level, parentTitle⟩]
       | _ => []) ++ flattenList (level + 1) title children

/-- `flattenOutline` over a sibling list. -/
def flattenList (level : Nat) (parentTitle : String) : List OutlineNode → List FlatItem
  | [] => []
  | n :: rest => flattenNode level parentTitle n ++ flattenList level parentTitle rest

end

/-- `allOutlineItems` after `sort((a, b) => a.pageNumber - b.pageNumber)`. -/
def sortedOutlineItems (doc : PdfDoc) : List FlatItem :=
  sortByKey (fun it => (it.pageNumber : Int)) (flattenList 0 "" doc.outline)

/-- `hasNumericChapters`: some item's title matches `/^(Chapter|CHAPTER)\s+\d+/i`. -/
def hasNumericChapters (items : List FlatItem) : Bool :=
  items.any (fun it => matchChapterCI it.title)

/-- `hasNumericSections`: some item's title matches `/^\d+\.\d+/`. -/
def hasNumericSections (items : List FlatItem) : Bool :=
  items.any (fun it => startsSubsec it.title)

/-- The `isMainChapter` test of the classification loop. -/
def isMainItem (hnc hns : Bool) (it : FlatItem) : Bool :=
  if hnc then matchChapterCI it.title
  else if hns then it.level == 0 || (matchBareNum it.title && !startsSubsec it.title)
  else it.level == 0

/-- Classification predicate: main chapter or canonical special section. -/
def isMainOrSpecial (hnc hns : Bool) (it : FlatItem) : Bool :=
  isMainItem hnc hns it || isSpecialSection it.title

/-- The `mainChapters` construction: for each classified item, the end page
is the page before the next classified item's start, or `numPages`. -/
def buildMainChapters (pred : FlatItem → Bool) (numPages : Int) :
    List FlatItem → List Chapter
  | [] => []
  | it :: rest =>
      if pred it then
        let endP : Int := match rest.find? pred with
          | some nx => (nx.pageNumber : Int) - 1
          | none => numPages
        ⟨it.title, (it.pageNumber : Int), endP⟩ :: buildMainChapters pred numPages rest
      else buildMainChapters pred numPages rest

/-- The classification predicate with the document-wide pattern flags
computed from the given item list. -/
def outlineMainPred (items : List FlatItem) : FlatItem → Bool :=
  isMainOrSpecial (hasNumericChapters items) (hasNumericSections items)

/-- `extractChaptersFromOutline`: `none` models the `return null` taken when
the outline is absent or empty; otherwise the classified main chapters, or,
when none classify, all level-0 items paired with their successors. -/
def extractChaptersFromOutline (doc : PdfDoc) : Option (List Chapter) :=
  if doc.outline.isEmpty then none
  else
    if (buildMainChapters (outlineMainPred (sortedOutlineItems doc))
        (doc.numPages : Int) (sortedOutlineItems doc)).isEmpty then
      some (assemble (doc.numPages : Int)
        (((sortedOutlineItems doc).filter (fun it => it.level == 0)).map
          (fun it => ⟨it.title, (it.pageNumber : Int)⟩)))
    else
      some (buildMainChapters (outlineMainPred (sortedOutlineItems doc))
        (doc.numPages : Int) (sortedOutlineItems doc))

/-! ## PDF TOC extractor (`extractChaptersFromTOC`) -/

/-- The page text the TOC scan inspects:
`textContent.items.map(item => item.str).join(' ').toLowerCase()`. -/
def pageIndicatorText (pg : PdfPage) : String :=
  sLower (joinSp (pg.items.map (fun it => it.str)))

/-- Regex `/^\s*contents\s*$/` against the whole page text (no `m` flag). -/
def standaloneContents (s : String) : Bool :=
  match stripPrefixCS "contents".toList (s.toList.dropWhile Char.isWhitespace) with
  | some rest => rest.all Char.isWhitespace
  | none => false

/-- The TOC indicator test of the scan loop, verbatim from the source:
`includes('table of contents') || includes('contents') || includes('índice')
|| match(/^\s*contents\s*$/)`. -/
def hasTocIndicator (s : String) : Bool :=
  strOccursIn "table of contents" s || strOccursIn "contents" s ||
    strOccursIn "índice" s || standaloneContents s

/-- Whether page `p` is readable and its text carries a TOC indicator
(a page whose read throws is skipped by the `catch`). -/
def pageHasTocIndicator (doc : PdfDoc) (p : Nat) : Bool :=
  match doc.getPage p with
  | some pg => hasTocIndicator (pageIndicatorText pg)
  | none => false

/-- The TOC-page scan: `for (pageNum = 1; pageNum <= Math.min(20, numPages))`,
breaking at the first page whose text matches. -/
def findTocPage (doc : PdfDoc) : Option Nat :=
  (List.range' 1 (min 20 doc.numPages)).find? (pageHasTocIndicator doc)

/-- Line grouping: a change of rounded y by more than 5 starts a new line;
`lastY` always tracks the previous item's y. -/
def groupLinesGo : List TextItem → Int → List TextItem → List (List TextItem)
  | [], _, cur => [cur]
  | it :: rest, lastY, cur =>
      if 5 < (it.y - lastY).natAbs then cur :: groupLinesGo rest it.y [it]
      else groupLinesGo rest it.y (cur ++ [it])

/-- A grouped line's text: `currentLine.map(i => i.str).join(' ').trim()`. -/
def lineText (line : List TextItem) : String :=
  sTrim (joinSp (line.map (fun it => it.str)))

/-- Group a TOC page's items into line texts. -/
def groupLines : List TextItem → List String
  | [] => []
  | first :: rest => (groupLinesGo rest first.y [first]).map lineText

/-- Regex `/(\d+)\s*$/`: the maximal trailing digit run before optional
trailing whitespace; returns the run's start index and its digits. -/
def trailingNumber (cs : List Char) : Option (Nat × List Char) :=
  let rev := cs.reverse
  let wsn := (rev.takeWhile Char.isWhitespace).length
  let digsRev := (rev.drop wsn).takeWhile Char.isDigit
  if digsRev.isEmpty then none
  else some (cs.length - wsn - digsRev.length, digsRev.reverse)

/-- `replace(/\.+$/, '')`: strip a run of dots at the very end. -/
def stripTrailingDots (cs : List Char) : List Char :=
  (cs.reverse.dropWhile (fun c => c == '.')).reverse

/-- Parse one grouped line into a TOC entry: skip empty lines and lines
repeating the header; extract the trailing page number; keep the title
when it is longer than 2 characters and not purely numeric. -/
def parseTocLine (text : String) : Option TocEntry :=
  if text == "" || strOccursIn "table of contents" (sLower text) then none
  else
    match trailingNumber text.toList with
    | none => none
    | some (idx, digs) =>
        let title := sTrim (String.mk (stripTrailingDots (text.toList.take idx)))
        if 2 < title.length && !(allDigits title) then
          some ⟨title, natOfDigits digs⟩
        else none

/-- All parsed TOC entries of the identified TOC page. -/
def parseTocEntries (pg : PdfPage) : List TocEntry :=
  (groupLines pg.items).filterMap parseTocLine

/-- The main-chapter filter on TOC entries: drop `<int>.<int>` sub-sections
and bare numbers. -/
def tocMainFilter (e : TocEntry) : Bool :=
  !(startsSubsec e.title) && !(allDigits e.title)

/-- `title.toLowerCase().replace(/[^\w\s]/g, '')`. -/
def cleanForCompare (s : String) : String :=
  String.mk ((sLower s).toList.filter (fun c => isWordChar c || c.isWhitespace))

/-- Whether the first 10 text items of page `pageNum`, cleaned, contain the
cleaned candidate title (an unreadable page is skipped by the `catch`). -/
def pageStartsWithTitle (doc : PdfDoc) (cleanTitle : String) (pageNum : Nat) : Bool :=
  match doc.getPage pageNum with
  | none => false
  | some pg =>
      let firstTexts := joinSp ((pg.items.take 10).map (fun it => it.str))
      strOccursIn cleanTitle (cleanForCompare firstTexts)

/-- One offset sample: search pages
`max(tocPageNum, printed - 5) .. min(numPages, printed + 50)` for the first
page whose leading text contains the entry's cleaned title; the sample is
`actualPage - printedPage`. -/
def offsetSampleFor (doc : PdfDoc) (tocPageNum : Nat) (e : TocEntry) : Option Int :=
  let cTitle := sTrim (cleanForCompare e.title)
  let lo := max tocPageNum (e.printed - 5)
  let hi := min doc.numPages (e.printed + 50)
  ((List.range' lo (hi + 1 - lo)).find? (pageStartsWithTitle doc cTitle)).map
    (fun p => (p : Int) - (e.printed : Int))

/-- The single page offset: `Math.round` of the mean of the samples found
for the first `min(3, mainChapters.length)` candidates, or 0 when no sample
succeeds.  `Math.round x = ⌊x + 1/2⌋` is computed with `Int.fdiv`. -/
def computeOffset (doc : PdfDoc) (tocPageNum : Nat) (mains : List TocEntry) : Int :=
  let samples := (mains.take 3).filterMap (offsetSampleFor doc tocPageNum)
  if samples.isEmpty then 0
  else Int.fdiv (2 * samples.sum + (samples.length : Int)) (2 * (samples.length : Int))

/-- The text-line path of the TOC extractor: parse entries, filter to main
candidates; with fewer than 3 main candidates emit all entries unadjusted,
otherwise emit the main candidates shifted by the computed offset. -/
def tocTextChapters (doc : PdfDoc) (tocPageNum : Nat) (pg : PdfPage) : List Chapter :=
  if ((parseTocEntries pg).filter tocMainFilter).length < 3 then
    assemble (doc.numPages : Int)
      ((parseTocEntries pg).map (fun e => ⟨e.title, (e.printed : Int)⟩))
  else
    assemble (doc.numPages : Int)
      (((parseTocEntries pg).filter tocMainFilter).map (fun e =>
        ⟨e.title, (e.printed : Int) +
          computeOffset doc tocPageNum ((parseTocEntries pg).filter tocMainFilter)⟩))

/-! ## PDF TOC link path (`extractChaptersFromTOCLinks`, `getTextNearRect`) -/

/-- The text fragments overlapping a link rectangle (margin 5), trimmed and
joined: the part of `getTextNearRect` before the title clean-up. -/
def rectOverlapText (pg : PdfPage) (rect : Int × Int × Int × Int) : String :=
  let texts := pg.items.filterMap (fun it =>
    if (decide (rect.1 - 5 ≤ it.x) && decide (it.x ≤ rect.2.2.1 + 5) &&
        decide (rect.2.1 - 5 ≤ it.y) && decide (it.y ≤ rect.2.2.2 + 5)) &&
        sTrim it.str != "" then some (sTrim it.str) else none)
  sTrim (joinSp texts)

/-- `getTextNearRect`: collect the overlapping text and, when non-empty,
apply the title clean-up (abstracted as `cleanTitle`); an unreadable page
yields `""` via the `catch`. -/
def getTextNearRect (cleanTitle : String → String) (doc : PdfDoc) (pageNum : Nat)
    (rect : Int × Int × Int × Int) : String :=
  match doc.getPage pageNum with
  | none => ""
  | some pg =>
      let fullText := rectOverlapText pg rect
      if fullText == "" then fullText else cleanTitle fullText

/-- Search `annotation.url` for `/#page=(\d+)/`. -/
def urlPageNumber : List Char → Option Nat
  | [] => none
  | c :: rest =>
      match stripPrefixCS "#page=".toList (c :: rest) with
      | some tail =>
          let ds := tail.takeWhile Char.isDigit
          if ds.isEmpty then urlPageNumber rest else some (natOfDigits ds)
      | none => urlPageNumber rest

/-- Resolve one link annotation to a 1-based page number: a present
destination that resolves gives `pageIndex + 1`; a failing resolution skips
the link; with no destination, an internal `#page=N` URL gives
`(N - 1) + 1`. -/
def resolveLink (a : LinkAnnot) : Option Int :=
  match a.dest with
  | some r => r.map (fun p => ((p : Int)) + 1)
  | none =>
      match a.url with
      | some u =>
          if sStartsWith "#" u then
            (urlPageNumber u.toList).map (fun n => ((n : Int) - 1) + 1)
          else none
      | none => none

/-- The `linkDestinations` build loop: resolve each link, title it from the
text near its rectangle, substituting `Section {count + 1}` when that text
is shorter than 2 characters; links that do not resolve are skipped. -/
def processLinks (cleanTitle : String → String) (doc : PdfDoc) (tocPageNum : Nat) :
    List LinkAnnot → Nat → List PreChapter
  | [], _ => []
  | a :: rest, cnt =>
      match resolveLink a with
      | none => processLinks cleanTitle doc tocPageNum rest cnt
      | some pageNum =>
          let linkText := getTextNearRect cleanTitle doc tocPageNum a.rect
          let finalTitle :=
            if linkText.length < 2 then "Section " ++ toString (cnt + 1) else linkText
          ⟨finalTitle, pageNum⟩ :: processLinks cleanTitle doc tocPageNum rest (cnt + 1)

/-- The duplicate-removal loop: a destination whose page was already seen is
dropped; the page is recorded before the title-length check. -/
def dedupByPage (seen : List Int) : List PreChapter → List PreChapter
  | [] => []
  | d :: rest =>
      if seen.contains d.page then dedupByPage seen rest
      else if d.title.length < 2 then dedupByPage (d.page :: seen) rest
      else d :: dedupByPage (d.page :: seen) rest

/-- The `allChapters` list of the link path: resolve the links, sort by
page, deduplicate, sort again. -/
def tocLinkPreChapters (cleanTitle : String → String) (doc : PdfDoc)
    (links : List LinkAnnot) (tocPageNum : Nat) : List PreChapter :=
  sortByKey (fun p => p.page)
    (dedupByPage []
      (sortByKey (fun p => p.page) (processLinks cleanTitle doc tocPageNum links 0)))

/-- `extractChaptersFromTOCLinks`: resolve, sort by page, deduplicate, sort
again, emit ranges; `null` when no chapter results. -/
def extractChaptersFromTOCLinks (cleanTitle : String → String) (doc : PdfDoc)
    (links : List LinkAnnot) (tocPageNum : Nat) : Option (List Chapter) :=
  if (assemble (doc.numPages : Int)
      (tocLinkPreChapters cleanTitle doc links tocPageNum)).isEmpty then none
  else
    some (assemble (doc.numPages : Int)
      (tocLinkPreChapters cleanTitle doc links tocPageNum))

/-- The link annotations of the TOC page:
`annotations.filter(ann => ann.subtype === 'Link' && ann.dest)`. -/
def tocLinkAnnots (pg : PdfPage) : List LinkAnnot :=
  pg.annots.filter (fun a => a.subtypeLink && a.dest.isSome)

/-- `extractChaptersFromTOC`: find the TOC page (else `null`); when the page
carries clickable links, derive chapters from them; otherwise parse its
text lines. -/
def extractChaptersFromTOC (cleanTitle : String → String) (doc : PdfDoc) :
    Option (List Chapter) :=
  match findTocPage doc with
  | none => none
  | some tp =>
      match doc.getPage tp with
      | none => none
      | some pg =>
          if 0 < (tocLinkAnnots pg).length then
            extractChaptersFromTOCLinks cleanTitle doc (tocLinkAnnots pg) tp
          else some (tocTextChapters doc tp pg)

/-! ## PDF content heuristic detector (`detectChaptersFromContent`) -/

/-- Tail `\s+(\d+|[IVXLCDM]+)(?:\s|:|$)` after a literal alternative, for
one number class; returns the consumed characters. -/
def numTailWith (cls : Char → Bool) (ws rest : List Char) : Option (List Char) :=
  let num := rest.takeWhile cls
  if num.isEmpty then none
  else
    match rest.drop num.length with
    | [] => some (ws ++ num)
    | c :: _ => if c.isWhitespace || c == ':' then some (ws ++ num ++ [c]) else none

/-- Tail `\s+(\d+|[IVXLCDM]+)(?:\s|:|$)`: digits are tried before roman
numerals, as in the regex alternation. -/
def matchNumTail (cs : List Char) : Option (List Char) :=
  let ws := cs.takeWhile Char.isWhitespace
  if ws.isEmpty then none
  else
    let rest := cs.drop ws.length
    match numTailWith Char.isDigit ws rest with
    | some r => some r
    | none => numTailWith isRomanChar ws rest

/-- Anchored match of `(p1|p2|...)\s+(\d+|[IVXLCDM]+)(?:\s|:|$)` trying the
literal alternatives in order; returns `match[0]`. -/
def matchPrefixNum (cs : List Char) : List String → Option String
  | [] => none
  | p :: rest =>
      match stripPrefixCS p.toList cs with
      | some tail =>
          match matchNumTail tail with
          | some consumed => some (String.mk (p.toList ++ consumed))
          | none => matchPrefixNum cs rest
      | none => matchPrefixNum cs rest

/-- Regex `/^(\d+)\.(?:\s+\w+|$)/` ("1. Introduction" or just "1.");
returns `match[0]`. -/
def matchNumDot (s : String) : Option String :=
  let cs := s.toList
  let ds := cs.takeWhile Char.isDigit
  if ds.isEmpty then none
  else
    match cs.drop ds.length with
    | '.' :: rest =>
        match rest with
        | [] => some (String.mk (ds ++ ['.']))
        | _ :: _ =>
            let ws := rest.takeWhile Char.isWhitespace
            if ws.isEmpty then none
            else
              let w := (rest.drop ws.length).takeWhile isWordChar
              if w.isEmpty then none
              else some (String.mk (ds ++ '.' :: (ws ++ w)))
    | _ => none

/-- Names of `/^(Introduction|Conclusion|Preface|Epilogue|Appendix|Bibliography|References|Index)$/i`. -/
def contentSpecialNamesA : List String :=
  ["Introduction", "Conclusion", "Preface", "Epilogue", "Appendix",
   "Bibliography", "References", "Index"]

/-- Names of `/^(Foreword|Acknowledgments|Dedication|Abstract|Summary)$/i`. -/
def contentSpecialNamesB : List String :=
  ["Foreword", "Acknowledgments", "Dedication", "Abstract", "Summary"]

/-- Whole-string case-insensitive match against a name list; `match[0]` is
the whole string. -/
def matchExactNames (names : List String) (s : String) : Option String :=
  if names.any (fun n => ciEq n s) then some s else none

/-- First match of the priority-ordered `mainChapterPatterns`; returns the
matched text `match[0]`. -/
def firstMainMatch (s : String) : Option String :=
  match matchPrefixNum s.toList ["Chapter", "CHAPTER", "Chap.", "Chap"] with
  | some r => some r
  | none =>
  match matchPrefixNum s.toList ["Part", "PART"] with
  | some r => some r
  | none =>
  match matchNumDot s with
  | some r => some r
  | none =>
  match matchExactNames contentSpecialNamesA s with
  | some r => some r
  | none => matchExactNames contentSpecialNamesB s

/-- Regex `/^(Section|SECTION|Sec\.?)\s+\d+\.\d+/`. -/
def matchSecSubsec (s : String) : Bool :=
  ["Section", "SECTION", "Sec.", "Sec"].any (fun p =>
    match stripPrefixCS p.toList s.toList with
    | some tail =>
        let ws := tail.takeWhile Char.isWhitespace
        !ws.isEmpty && startsSubsec (String.mk (tail.drop ws.length))
    | none => false)

/-- The `subsectionPatterns` test. -/
def isSubsectionText (s : String) : Bool :=
  startsSubsec s || matchSecSubsec s

/-- Regex `/(\d+|[IVXLCDM]+)/` searched over `match[0]`: the first maximal
digit run or roman-character run, scanning left to right. -/
def firstToken : List Char → Option String
  | [] => none
  | c :: rest =>
      if c.isDigit then some (String.mk (c :: rest.takeWhile Char.isDigit))
      else if isRomanChar c then some (String.mk (c :: rest.takeWhile isRomanChar))
      else firstToken rest

/-- The page text tested against the patterns: the first
`min(10, items.length)` items with non-blank text, each contributing
`item.str + ' '`, then trimmed. -/
def pageCombinedText (pg : PdfPage) : String :=
  sTrim ((pg.items.take 10).foldl
    (fun acc it => if sTrim it.str != "" then acc ++ it.str ++ " " else acc) "")

/-- Font sizes (`item.height`) of the same leading non-blank items. -/
def pageFontSizes (pg : PdfPage) : List Nat :=
  (pg.items.take 10).filterMap
    (fun it => if sTrim it.str != "" then some it.height else none)

/-- `firstItems.reduce((prev, cur) => cur.fontSize > prev.fontSize ? cur : prev)`
with default font size 12 when no items accumulated. -/
def largestFontSize : List Nat → Nat
  | [] => 12
  | f :: rest => rest.foldl (fun prev cur => if prev < cur then cur else prev) f

/-- A candidate of `potentialChapters`. -/
structure PotChapter where
  title : String
  pageNum : Nat
  fontSize : Nat
  chapterNum : String
deriving DecidableEq, Repr

/-- The first detection pass over the given page numbers, threading the
`seenChapters` token set: skip unreadable pages, pages that look like
sub-sections, pages with no main-pattern match, and pages whose extracted
chapter-number token was already recorded. -/
def detectScan (doc : PdfDoc) : List Nat → List String → List PotChapter
  | [], _ => []
  | p :: rest, seen =>
      match doc.getPage p with
      | none => detectScan doc rest seen
      | some pg =>
          let combined := pageCombinedText pg
          if isSubsectionText combined then detectScan doc rest seen
          else
            match firstMainMatch combined with
            | none => detectScan doc rest seen
            | some m0 =>
                let tok := (firstToken m0.toList).getD m0
                if seen.contains tok then detectScan doc rest seen
                else
                  ⟨m0, p, largestFontSize (pageFontSizes pg), tok⟩ ::
                    detectScan doc rest (tok :: seen)

/-- `detectChaptersFromContent`: scan pages `1..numPages`, then pair each
candidate with the next one's start page. -/
def detectChaptersFromContent (doc : PdfDoc) : List Chapter :=
  assemble (doc.numPages : Int)
    ((detectScan doc (List.range' 1 doc.numPages) []).map
      (fun c => ⟨c.title, (c.pageNum : Int)⟩))

/-! ## Fallback and orchestration (`createPageBasedChapters`, `parsePDF`) -/

/-- `createPageBasedChapters`: a single chapter for the whole document. -/
def createPageBasedChapters (numPages : Nat) : List Chapter :=
  [⟨"Full Document", 1, (numPages : Int)⟩]

/-- The test `!chapters || chapters.length === 0` deciding fallthrough. -/
def stageResultEmpty (r : Option (List Chapter)) : Bool :=
  (r.getD []).isEmpty

/-- The four discovery stages in source order: 0 outline, 1 TOC, 2 content
heuristic, 3 whole-document fallback. -/
def stageRun (cleanTitle : String → String) (doc : PdfDoc) (k : Nat) :
    Option (List Chapter) :=
  if k = 0 then extractChaptersFromOutline doc
  else if k = 1 then extractChaptersFromTOC cleanTitle doc
  else if k = 2 then some (detectChaptersFromContent doc)
  else some (createPageBasedChapters doc.numPages)

/-- The chapter-list portion of `parsePDF`: each stage runs only when every
earlier stage produced null or an empty list. -/
def parsePDF (cleanTitle : String → String) (doc : PdfDoc) : List Chapter :=
  let c0 := extractChaptersFromOutline doc
  let c1 := if stageResultEmpty c0 then extractChaptersFromTOC cleanTitle doc else c0
  let c2 := if stageResultEmpty c1 then some (detectChaptersFromContent doc) else c1
  let c3 := if stageResultEmpty c2 then some (createPageBasedChapters doc.numPages) else c2
  c3.getD []

/-- The stages `parsePDF` invokes, in invocation order. -/
def invokedStages (cleanTitle : String → String) (doc : PdfDoc) : List Nat :=
  0 :: (if stageResultEmpty (stageRun cleanTitle doc 0) then
    1 :: (if stageResultEmpty (stageRun cleanTitle doc 1) then
      2 :: (if stageResultEmpty (stageRun cleanTitle doc 2) then [3] else []) else [])
    else [])

/-! ## PDF range text extraction (`extractTextFromPDFRange`) -/

/-- The pages visited by `for (pageNum = startPage; pageNum <= endPage)`. -/
def pageList (s e : Nat) : List Nat :=
  List.range' s (e + 1 - s)

/-- One page's text: `pageText += item.str + ' '` for each item whose `str`
is truthy (non-empty). -/
def pdfPageText (pg : PdfPage) : String :=
  pg.items.foldl (fun acc it => if it.str != "" then acc ++ it.str ++ " " else acc) ""

/-- The extraction loop; `none` when any page read throws — the `try` block
wraps the whole loop, so the first failure abandons the accumulated text. -/
def pdfRangeLoop (doc : PdfDoc) : List Nat → String → Option String
  | [], acc => some acc
  | n :: rest, acc =>
      match doc.getPage n with
      | none => none
      | some pg =>
          let pageText := pdfPageText pg
          let acc2 :=
            if sTrim pageText != "" then
              acc ++ "\n\n--- Page " ++ toString n ++ " ---\n\n" ++ sTrim pageText ++ "\n"
            else acc
          pdfRangeLoop doc rest acc2

/-- The string built by the `catch` branch. -/
def pdfRangeErrorText (s e : Nat) : String :=
  "[Error extracting text from pages " ++ toString s ++ "-" ++ toString e ++ "]"

/-- `extractTextFromPDFRange`: the trimmed page-by-page assembly, or the
error marker when any page in the range fails to read. -/
def extractTextFromPDFRange (doc : PdfDoc) (s e : Nat) : String :=
  match pdfRangeLoop doc (pageList s e) "" with
  | some t => sTrim t
  | none => pdfRangeErrorText s e

/-! ## EPUB structural resolution (`parseEpubStructure`) -/

/-- A manifest `<item>`: id, href and media-type. -/
structure ManifestItem where
  id : String
  href : String
  mediaType : String
deriving DecidableEq, Repr

/-- An EPUB chapter `{title, href}`. -/
structure EpubChapter where
  title : String
  href : String
deriving DecidableEq, Repr

/-- Resolution of one spine `idref`: the first manifest item with that id,
kept only when its media-type is `application/xhtml+xml`; the href is
resolved against the package document's directory. -/
def resolveSpineItem (manifest : List ManifestItem) (opfDir : String)
    (idref : String) : Option String :=
  match manifest.find? (fun it => it.id == idref) with
  | some it =>
      if it.mediaType == "application/xhtml+xml" then some (opfDir ++ it.href)
      else none
  | none => none

/-- The chapter loop of `parseEpubStructure` over the spine `itemref`s, with
`n` the number of chapters already built.  `titleOf` abstracts the title
heuristic cascade (Methods 1-7 plus the `catch` fallback), which always
yields a title and never prevents the push. -/
def epubChapters (titleOf : String → Nat → String) (manifest : List ManifestItem)
    (opfDir : String) : List String → Nat → List EpubChapter
  | [], _ => []
  | idref :: rest, n =>
      match manifest.find? (fun it => it.id == idref) with
      | some it =>
          if it.mediaType == "application/xhtml+xml" then
            let fullPath := opfDir ++ it.href
            ⟨titleOf fullPath (n + 1), fullPath⟩ ::
              epubChapters titleOf manifest opfDir rest (n + 1)
          else epubChapters titleOf manifest opfDir rest n
      | none => epubChapters titleOf manifest opfDir rest n

/-! ## Markup text extraction (`extractTextFromHtml`) -/

/-- A parsed markup node: a text node or an element with children. -/
inductive HtmlNode where
  | text (s : String)
  | elem (tag : String) (children : List HtmlNode)

/-- The `blockElements` list. -/
def blockTags : List String :=
  ["p", "div", "h1", "h2", "h3", "h4", "h5", "h6", "br", "li", "section",
   "article", "header", "footer", "nav", "aside", "blockquote", "pre", "td", "th"]

/-- The `spaceAfterElements` list. -/
def inlineSpaceTags : List String :=
  ["span", "a", "em", "strong", "b", "i", "u"]

/-- The `skipElements` list. -/
def skipTextTags : List String :=
  ["style", "script", "noscript"]

mutual

/-- The `traverse` visitor: text nodes append their text; skipped elements
contribute nothing; block elements add a newline before and after their
children when text was already accumulated; listed inline elements append
a space when the text does not already end in one. -/
def traverseNode (acc : String) : HtmlNode → String
  | .text s => acc ++ s
  | .elem tag children =>
      let t := sLower tag
      if skipTextTags.contains t then acc
      else
        let acc1 := if blockTags.contains t && 0 < acc.length then acc ++ "\n" else acc
        let acc2 := traverseChildren acc1 children
        let acc3 := if blockTags.contains t && 0 < acc2.length then acc2 ++ "\n" else acc2
        if inlineSpaceTags.contains t && 0 < acc3.length && !(sEndsWith " " acc3) then
          acc3 ++ " "
        else acc3

/-- `traverse` over a child list, in order. -/
def traverseChildren (acc : String) : List HtmlNode → String
  | [] => acc
  | n :: rest => traverseChildren (traverseNode acc n) rest

end

/-- `replace(/\r\n/g, '\n')`. -/
def normalizeCRLF : List Char → List Char
  | '\r' :: '\n' :: rest => '\n' :: normalizeCRLF rest
  | c :: rest => c :: normalizeCRLF rest
  | [] => []

/-- `replace(/\n{3,}/g, '\n\n')`: each maximal newline run of length `≥ 3`
becomes two; `k` counts the pending run. -/
def collapseNLRun : Nat → List Char → List Char
  | k, [] => List.replicate (min k 2) '\n'
  | k, '\n' :: rest => collapseNLRun (k + 1) rest
  | k, c :: rest => List.replicate (min k 2) '\n' ++ c :: collapseNLRun 0 rest

/-- `replace(/[ \t]+/g, ' ')`; the flag records being inside a run. -/
def collapseHWRun : Bool → List Char → List Char
  | _, [] => []
  | inRun, c :: rest =>
      if c == ' ' || c == '\t' then
        if inRun then collapseHWRun true rest else ' ' :: collapseHWRun true rest
      else c :: collapseHWRun false rest

/-- `replace(/\n[ \t]+/g, '\n')`: drop horizontal whitespace after a newline. -/
def stripAfterNLRun : Bool → List Char → List Char
  | _, [] => []
  | afterNL, c :: rest =>
      if afterNL && (c == ' ' || c == '\t') then stripAfterNLRun true rest
      else c :: stripAfterNLRun (c == '\n') rest

/-- `replace(/[ \t]+\n/g, '\n')`: drop horizontal whitespace directly before
a newline; `pending` holds the run (reversed) not yet known to precede one. -/
def stripBeforeNLRun (pending : List Char) : List Char → List Char
  | [] => pending.reverse
  | c :: rest =>
      if c == ' ' || c == '\t' then stripBeforeNLRun (c :: pending) rest
      else if c == '\n' then '\n' :: stripBeforeNLRun [] rest
      else pending.reverse ++ c :: stripBeforeNLRun [] rest

/-- The whitespace clean-up applied after traversal, in source order. -/
def cleanupExtractedText (s : String) : String :=
  sTrim (String.mk (stripBeforeNLRun []
    (stripAfterNLRun false
      (collapseHWRun false
        (collapseNLRun 0
          (normalizeCRLF s.toList))))))

/-- `extractTextFromHtml` applied to a parsed root element. -/
def extractTextFromHtml (root : HtmlNode) : String :=
  cleanupExtractedText (traverseNode "" root)

/-! ## Concrete documents used in the theorems below -/

/-- A readable page with no text and no annotations. -/
def emptyPage : PdfPage := ⟨[], []⟩

/-- A 3-page document whose first page is a TOC page with a single entry
whose printed page number (99) lies far beyond the document. -/
def exTocDoc : PdfDoc :=
  ⟨[some ⟨[⟨"Contents", 0, 100, 12⟩, ⟨"Alpha Beta 99", 0, 80, 12⟩], []⟩,
    some emptyPage, some emptyPage], []⟩

/-- A 3-page document whose middle page fails to read. -/
def exRangeDoc : PdfDoc :=
  ⟨[some ⟨[⟨"Hello", 0, 0, 12⟩], []⟩, none, some ⟨[⟨"World", 0, 0, 12⟩], []⟩], []⟩

/-- A 10-page document with outline items `Chapter 1` (level 0, page 1),
`1.1 Setup` (level 1, page 2) and `Chapter 2` (level 0, page 5). -/
def exOutlineDoc : PdfDoc :=
  ⟨List.replicate 10 (some emptyPage),
   [.node "Chapter 1" (some (some 0)) [.node "1.1 Setup" (some (some 1)) []],
    .node "Chapter 2" (some (some 4)) []]⟩

/-- A 1-page document whose page merely mentions the word "contents". -/
def exContentsDoc : PdfDoc :=
  ⟨[some ⟨[⟨"shipping contents inventory", 0, 0, 12⟩], []⟩], []⟩

/-- A 2-page document whose pages begin with the distinct headings
`Chapter 1` and `Chapter 2`. -/
def exChapterPagesDoc : PdfDoc :=
  ⟨[some ⟨[⟨"Chapter 1", 0, 0, 12⟩], []⟩, some ⟨[⟨"Chapter 2", 0, 0, 12⟩], []⟩], []⟩

/-- A 5-page document whose TOC page carries two clickable links with
resolvable destinations (to pages 2 and 4). -/
def exLinksDoc : PdfDoc :=
  ⟨[some ⟨[⟨"Contents", 0, 100, 12⟩, ⟨"Intro", 0, 80, 12⟩],
          [⟨true, some (some 1), none, (0, 75, 50, 85)⟩,
           ⟨true, some (some 3), none, (0, 95, 50, 105)⟩]⟩,
    some emptyPage, some emptyPage, some emptyPage, some emptyPage], []⟩

/-- A 2-page document with no outline, no TOC and no heading-like text. -/
def exPlainDoc : PdfDoc := ⟨[some emptyPage, some emptyPage], []⟩

/-- The literal content tree `<body><h1>T</h1><p>One.</p><p>Two.</p></body>`. -/
def exHtmlBody : HtmlNode :=
  .elem "body" [.elem "h1" [.text "T"], .elem "p" [.text "One."],
    .elem "p" [.text "Two."]]

/-- The page-range invariant asserted by the specification: every chapter
satisfies `startPage ≤ endPage ≤ totalPages`. -/
def chapterRangesValid (n : Nat) (chs : List Chapter) : Bool :=
  chs.all (fun c => decide (c.startPage ≤ c.endPage) && decide (c.endPage ≤ (n : Int)))

/-- The document the specification's behaviour would amount to reading: every
failing page replaced by a readable empty page, so that a page-level read
failure contributes empty text while the other pages still extract. -/
def maskPageFailures (doc : PdfDoc) : PdfDoc :=
  ⟨doc.pages.map (fun p => some (p.getD emptyPage)), doc.outline⟩

/-- Modelled from the spec: the table-of-contents indicator as the spec
words it — "table of contents", "contents" as a standalone line, or the
localized equivalent "índice"; unlike the source, a mere substring
occurrence of "contents" does not count. -/
def specTocIndicator (s : String) : Bool :=
  strOccursIn "table of contents" s || standaloneContents s ||
    strOccursIn "índice" s

/-! ## Shared lemmas about the emission step -/

/-- The emission step on a non-empty list starts with the head entry's
title and page. -/
theorem assemble_cons_head (n : Int) (q : PreChapter) (rest : List PreChapter) :
    ∃ e tail, assemble n (q :: rest) = ⟨q.title, q.page, e⟩ :: tail := by
  cases rest <;> simp [assemble]

/-- Adjacent chapters produced by the shared emission step are contiguous:
each `endPage` is the next `startPage` minus one. -/
theorem assemble_chain (n : Int) (l : List PreChapter) :
    List.Chain' (fun a b => a.endPage = b.startPage - 1) (assemble n l) := by
  induction l with
  | nil => simp [assemble]
  | cons p rest ih =>
      cases rest with
      | nil => simp [assemble]
      | cons q rest2 =>
          obtain ⟨e, tail, heq⟩ := assemble_cons_head n q rest2
          rw [assemble, heq]
          refine List.chain'_cons.mpr ⟨rfl, ?_⟩
          rw [← heq]
          exact ih

/-- The last chapter produced by the shared emission step ends at `n`. -/
theorem assemble_getLast (n : Int) (l : List PreChapter) :
    ∀ c, (assemble n l).getLast? = some c → c.endPage = n := by
  induction l with
  | nil => intro c hc; simp [assemble] at hc
  | cons p rest ih =>
      intro c hc
      cases rest with
      | nil => simp [assemble] at hc; simp [← hc]
      | cons q rest2 =>
          obtain ⟨e, tail, heq⟩ := assemble_cons_head n q rest2
          rw [assemble, heq, List.getLast?_cons_cons] at hc
          exact ih c (by rw [heq]; exact hc)

/-- The emission step keeps each entry's page as the chapter's start page. -/
theorem assemble_map_start (n : Int) (l : List PreChapter) :
    (assemble n l).map Chapter.startPage = l.map PreChapter.page := by
  induction l with
  | nil => simp [assemble]
  | cons p rest ih =>
      cases rest with
      | nil => simp [assemble]
      | cons q rest2 => rw [assemble]; simpa [assemble] using ih

/-- Every chapter the emission step produces carries the title and page of
one of the input entries. -/
theorem assemble_mem (n : Int) (l : List PreChapter) :
    ∀ c ∈ assemble n l, ∃ p ∈ l, c.title = p.title ∧ c.startPage = p.page := by
  induction l with
  | nil => intro c hc; simp [assemble] at hc
  | cons p rest ih =>
      intro c hc
      cases rest with
      | nil =>
          simp [assemble] at hc
          exact ⟨p, by simp, by simp [hc]⟩
      | cons q rest2 =>
          rw [assemble] at hc
          rcases List.mem_cons.mp hc with h | h
          · exact ⟨p, by simp, by simp [h]⟩
          · obtain ⟨r, hr, h1, h2⟩ := ih c h
            exact ⟨r, List.mem_cons_of_mem p hr, h1, h2⟩

/-- The emission step yields the empty list only on empty input. -/
theorem assemble_eq_nil_iff (n : Int) (l : List PreChapter) :
    assemble n l = [] ↔ l = [] := by
  cases l with
  | nil => simp [assemble]
  | cons p rest => cases rest <;> simp [assemble]

/-- `find?` returns the head of the filtered list. -/
theorem find?_eq_filter_head? (p : α → Bool) (l : List α) :
    l.find? p = (l.filter p).head? := by
  induction l with
  | nil => rfl
  | cons a rest ih =>
      by_cases h : p a
      · rw [List.find?_cons_of_pos _ h, List.filter_cons_of_pos h, List.head?_cons]
      · rw [List.find?_cons_of_neg _ h, List.filter_cons_of_neg h, ih]

/-- The outline `mainChapters` loop equals filtering by the classification
predicate and then running the shared emission step. -/
theorem buildMainChapters_eq (pred : FlatItem → Bool) (n : Int) (l : List FlatItem) :
    buildMainChapters pred n l =
      assemble n ((l.filter pred).map (fun it => ⟨it.title, (it.pageNumber : Int)⟩)) := by
  induction l with
  | nil => rfl
  | cons it rest ih =>
      by_cases h : pred it
      · rw [buildMainChapters, if_pos h, List.filter_cons_of_pos h, List.map_cons,
          find?_eq_filter_head?, ih]
        cases hfil : rest.filter pred with
        | nil => rfl
        | cons nx nxs => rfl
      · rw [buildMainChapters, if_neg h, List.filter_cons_of_neg h, ih]

/-! ## Lemmas about the stable sort and the duplicate-removal loop -/

/-- Membership through the insertion step. -/
theorem mem_insertByKey (key : α → Int) (a x : α) (l : List α) :
    x ∈ insertByKey key a l ↔ x ∈ l ∨ x = a := by
  induction l with
  | nil => simp [insertByKey]
  | cons b rest ih =>
      rw [insertByKey]
      by_cases h : key b < key a
      · rw [if_pos h]
        simp only [List.mem_cons, ih]
        tauto
      · rw [if_neg h]
        simp only [List.mem_cons]
        tauto

/-- Membership through the stable sort. -/
theorem mem_sortByKey (key : α → Int) (x : α) (l : List α) :
    x ∈ sortByKey key l ↔ x ∈ l := by
  induction l with
  | nil => simp [sortByKey]
  | cons b rest ih =>
      rw [sortByKey, List.foldr_cons]
      rw [mem_insertByKey]
      rw [show List.foldr (insertByKey key) [] rest = sortByKey key rest from rfl]
      simp [ih]
      tauto

/-- The insertion step preserves the sortedness invariant. -/
theorem insertByKey_pairwise (key : α → Int) (a : α) (l : List α)
    (h : l.Pairwise (fun x y => key x ≤ key y)) :
    (insertByKey key a l).Pairwise (fun x y => key x ≤ key y) := by
  induction l with
  | nil => simp [insertByKey]
  | cons b rest ih =>
      rw [insertByKey]
      rcases List.pairwise_cons.mp h with ⟨hb, hrest⟩
      by_cases hlt : key b < key a
      · rw [if_pos hlt]
        refine List.pairwise_cons.mpr ⟨?_, ih hrest⟩
        intro y hy
        rcases (mem_insertByKey key a y rest).mp hy with hy | hy
        · exact hb y hy
        · subst hy; exact le_of_lt hlt
      · rw [if_neg hlt]
        refine List.pairwise_cons.mpr ⟨?_, h⟩
        intro y hy
        rcases List.mem_cons.mp hy with hy | hy
        · subst hy; exact le_of_not_lt hlt
        · exact le_trans (le_of_not_lt hlt) (hb y hy)

/-- The stable sort sorts ascending by the key. -/
theorem sortByKey_pairwise (key : α → Int) (l : List α) :
    (sortByKey key l).Pairwise (fun x y => key x ≤ key y) := by
  induction l with
  | nil => simp [sortByKey]
  | cons b rest ih => exact insertByKey_pairwise key b _ ih

/-- Sorting a list that is already ascending leaves it unchanged
(the second `sort` of the link path is the identity). -/
theorem sortByKey_eq_self (key : α → Int) (l : List α)
    (h : l.Pairwise (fun x y => key x ≤ key y)) : sortByKey key l = l := by
  induction l with
  | nil => rfl
  | cons b rest ih =>
      rcases List.pairwise_cons.mp h with ⟨hb, hrest⟩
      rw [sortByKey, List.foldr_cons,
        show List.foldr (insertByKey key) [] rest = sortByKey key rest from rfl,
        ih hrest]
      cases rest with
      | nil => rfl
      | cons c rest2 =>
          rw [insertByKey, if_neg (not_lt.mpr (hb c (by simp)))]

/-- The duplicate-removal loop yields a sublist of its input. -/
theorem dedupByPage_sublist (seen : List Int) (l : List PreChapter) :
    List.Sublist (dedupByPage seen l) l := by
  induction l generalizing seen with
  | nil => simp [dedupByPage]
  | cons d rest ih =>
      rw [dedupByPage]
      by_cases h1 : seen.contains d.page
      · rw [if_pos h1]; exact List.Sublist.cons d (ih seen)
      · rw [if_neg h1]
        by_cases h2 : d.title.length < 2
        · rw [if_pos h2]; exact List.Sublist.cons d (ih (d.page :: seen))
        · rw [if_neg h2]; exact List.Sublist.cons₂ d (ih (d.page :: seen))

/-- Every destination the duplicate-removal loop keeps has a title of at
least 2 characters. -/
theorem dedupByPage_title (seen : List Int) (l : List PreChapter) :
    ∀ x ∈ dedupByPage seen l, 2 ≤ x.title.length := by
  induction l generalizing seen with
  | nil => simp [dedupByPage]
  | cons d rest ih =>
      intro x hx
      rw [dedupByPage] at hx
      by_cases h1 : seen.contains d.page
      · rw [if_pos h1] at hx; exact ih seen x hx
      · rw [if_neg h1] at hx
        by_cases h2 : d.title.length < 2
        · rw [if_pos h2] at hx; exact ih _ x hx
        · rw [if_neg h2] at hx
          rcases List.mem_cons.mp hx with hx | hx
          · subst hx; exact Nat.le_of_not_lt h2
          · exact ih _ x hx

/-- The pages kept by the duplicate-removal loop avoid the seen set and are
pairwise distinct. -/
theorem dedupByPage_pages (seen : List Int) (l : List PreChapter) :
    (∀ x ∈ (dedupByPage seen l).map PreChapter.page, x ∉ seen) ∧
      ((dedupByPage seen l).map PreChapter.page).Nodup := by
  induction l generalizing seen with
  | nil => simp [dedupByPage]
  | cons d rest ih =>
      rw [dedupByPage]
      by_cases h1 : seen.contains d.page
      · rw [if_pos h1]; exact ih seen
      · rw [if_neg h1]
        have hnd : d.page ∉ seen := by simpa using h1
        by_cases h2 : d.title.length < 2
        · rw [if_pos h2]
          obtain ⟨hout, hnodup⟩ := ih (d.page :: seen)
          exact ⟨fun x hx => fun hmem => hout x hx (List.mem_cons_of_mem _ hmem), hnodup⟩
        · rw [if_neg h2]
          obtain ⟨hout, hnodup⟩ := ih (d.page :: seen)
          constructor
          · intro x hx
            rw [List.map_cons] at hx
            rcases List.mem_cons.mp hx with hx | hx
            · subst hx; exact hnd
            · intro hmem; exact hout x hx (List.mem_cons_of_mem _ hmem)
          · rw [List.map_cons]
            refine List.nodup_cons.mpr ⟨?_, hnodup⟩
            intro hmem
            exact hout d.page hmem (List.mem_cons_self _ _)

/-! ## Lemmas about the link-destination loop and the stage shapes -/

/-- Every destination the link loop produces comes from one of the link
annotations: its page is the link's resolved page, and its title is the
text near the link's rectangle, or a generic section title when that text
is shorter than 2 characters. -/
theorem processLinks_mem (ct : String → String) (doc : PdfDoc) (tp : Nat)
    (links : List LinkAnnot) (cnt : Nat) :
    ∀ p ∈ processLinks ct doc tp links cnt,
      ∃ a ∈ links, resolveLink a = some p.page ∧
        ((2 ≤ (getTextNearRect ct doc tp a.rect).length ∧
            p.title = getTextNearRect ct doc tp a.rect) ∨
          ((getTextNearRect ct doc tp a.rect).length < 2 ∧
            ∃ k : Nat, p.title = "Section " ++ toString k)) := by
  induction links generalizing cnt with
  | nil => intro p hp; simp [processLinks] at hp
  | cons a rest ih =>
      intro p hp
      cases hres : resolveLink a with
      | none =>
          rw [show processLinks ct doc tp (a :: rest) cnt =
            processLinks ct doc tp rest cnt by rw [processLinks, hres]] at hp
          obtain ⟨b, hb, h⟩ := ih cnt p hp
          exact ⟨b, List.mem_cons_of_mem a hb, h⟩
      | some pageNum =>
          rw [show processLinks ct doc tp (a :: rest) cnt =
            ⟨(if (getTextNearRect ct doc tp a.rect).length < 2 then
                "Section " ++ toString (cnt + 1)
              else getTextNearRect ct doc tp a.rect), pageNum⟩ ::
              processLinks ct doc tp rest (cnt + 1) by rw [processLinks, hres]] at hp
          rcases List.mem_cons.mp hp with hp | hp
          · subst hp
            by_cases hlen : (getTextNearRect ct doc tp a.rect).length < 2
            · exact ⟨a, List.mem_cons_self a rest, hres,
                Or.inr ⟨hlen, cnt + 1, by rw [if_pos hlen]⟩⟩
            · exact ⟨a, List.mem_cons_self a rest, hres,
                Or.inl ⟨Nat.le_of_not_lt hlen, by rw [if_neg hlen]⟩⟩
          · obtain ⟨b, hb, h⟩ := ih (cnt + 1) p hp
            exact ⟨b, List.mem_cons_of_mem a hb, h⟩

/-- Every stage that returns a chapter list produced it with the shared
emission step against the document's last page. -/
theorem stageRun_shape (ct : String → String) (doc : PdfDoc) (k : Nat)
    (chs : List Chapter) (h : stageRun ct doc k = some chs) :
    ∃ l, chs = assemble (doc.numPages : Int) l := by
  unfold stageRun at h
  split_ifs at h with hk0 hk1 hk2
  · unfold extractChaptersFromOutline at h
    split_ifs at h with h1 h2
    · exact ⟨_, (Option.some.inj h).symm⟩
    · refine ⟨(((sortedOutlineItems doc).filter
        (outlineMainPred (sortedOutlineItems doc))).map
        (fun it => ⟨it.title, (it.pageNumber : Int)⟩)), ?_⟩
      rw [← buildMainChapters_eq]
      exact (Option.some.inj h).symm
  · unfold extractChaptersFromTOC at h
    split at h
    · exact absurd h (by simp)
    · split at h
      · exact absurd h (by simp)
      · split_ifs at h with hlinks
        · unfold extractChaptersFromTOCLinks at h
          split_ifs at h with hemp
          · exact ⟨_, (Option.some.inj h).symm⟩
        · unfold tocTextChapters at h
          split_ifs at h with hfew
          · exact ⟨_, (Option.some.inj h).symm⟩
          · exact ⟨_, (Option.some.inj h).symm⟩
  · rw [show detectChaptersFromContent doc = assemble (doc.numPages : Int)
      ((detectScan doc (List.range' 1 doc.numPages) []).map
        (fun c => ⟨c.title, (c.pageNum : Int)⟩)) from rfl] at h
    exact ⟨_, (Option.some.inj h).symm⟩
  · exact ⟨[⟨"Full Document", 1⟩], (Option.some.inj h).symm⟩

/-! ## C1: page ranges of the PDF discovery stages -/

/-- C1 (amended): for every PDF document and every discovery stage that
returns a chapter list, adjacent page ranges are contiguous
(`chapters[i].endPage = chapters[i+1].startPage - 1`) and the last
chapter's `endPage` equals the document's total page count.  (The further
claimed `startPage ≤ endPage ≤ totalPages` fails in general; see the
counterexample.) -/
theorem pdf_stage_ranges_contiguous (ct : String → String) (doc : PdfDoc)
    (k : Nat) (chs : List Chapter) (h : stageRun ct doc k = some chs) :
    List.Chain' (fun a b => a.endPage = b.startPage - 1) chs ∧
      ∀ c, chs.getLast? = some c → c.endPage = (doc.numPages : Int) := by
  obtain ⟨l, rfl⟩ := stageRun_shape ct doc k chs h
  exact ⟨assemble_chain _ l, assemble_getLast _ l⟩

/-- C1 witness: the contiguity theorem applied to the fallback stage of a
concrete 2-page document. -/
theorem pdf_stage_ranges_contiguous_witness :
    List.Chain' (fun a b => a.endPage = b.startPage - 1)
      ([⟨"Full Document", 1, 2⟩] : List Chapter) ∧
      ∀ c, ([⟨"Full Document", 1, 2⟩] : List Chapter).getLast? = some c →
        c.endPage = (exPlainDoc.numPages : Int) :=
  pdf_stage_ranges_contiguous (fun s => s) exPlainDoc 3 [⟨"Full Document", 1, 2⟩] rfl

/-- C1 counterexample: on `exTocDoc` the TOC stage returns a chapter whose
`startPage` (99, the printed page number) exceeds both its `endPage` and
the total page count, refuting `startPage ≤ endPage ≤ totalPages`. -/
theorem pdf_range_invariant_counterexample :
    stageRun (fun s => s) exTocDoc 1 = some [⟨"Alpha Beta", 99, 3⟩] ∧
      chapterRangesValid exTocDoc.numPages [⟨"Alpha Beta", 99, 3⟩] = false :=
  ⟨by decide, by decide⟩

/-! ## C2: behaviour of range extraction on a failing page -/

/-- If any page of the visited list fails to read, the extraction loop
fails as a whole. -/
theorem pdfRangeLoop_none (doc : PdfDoc) (l : List Nat)
    (h : ∃ n ∈ l, doc.getPage n = none) :
    ∀ acc, pdfRangeLoop doc l acc = none := by
  induction l with
  | nil => simp at h
  | cons m rest ih =>
      intro acc
      rw [pdfRangeLoop]
      cases hm : doc.getPage m with
      | none => rfl
      | some pg =>
          obtain ⟨n, hn, hnone⟩ := h
          rcases List.mem_cons.mp hn with rfl | hn2
          · rw [hm] at hnone; cases hnone
          · exact ih ⟨n, hn2, hnone⟩ _

/-- C2 (amended): a page-level read failure aborts the whole range — the
`try` wraps the entire loop, so the function returns the error marker
instead of extracting the remaining pages. -/
theorem pdf_range_aborts_on_failure (doc : PdfDoc) (s e : Nat)
    (h : ∃ n ∈ pageList s e, doc.getPage n = none) :
    extractTextFromPDFRange doc s e = pdfRangeErrorText s e := by
  unfold extractTextFromPDFRange
  rw [pdfRangeLoop_none doc (pageList s e) h ""]

/-- C2 witness: the abort theorem applied to a 3-page document whose middle
page fails to read. -/
theorem pdf_range_aborts_on_failure_witness :
    extractTextFromPDFRange exRangeDoc 1 3 = pdfRangeErrorText 1 3 :=
  pdf_range_aborts_on_failure exRangeDoc 1 3 ⟨2, by decide, rfl⟩

/-- C2 counterexample: on the same document the claim's predicted result —
the failing page contributing empty text while pages 1 and 3 still
extract, i.e. the behaviour on `maskPageFailures exRangeDoc` — differs
from what the function returns. -/
theorem pdf_range_abort_counterexample :
    extractTextFromPDFRange exRangeDoc 1 3 = pdfRangeErrorText 1 3 ∧
      extractTextFromPDFRange (maskPageFailures exRangeDoc) 1 3 =
        "--- Page 1 ---\n\nHello\n\n\n--- Page 3 ---\n\nWorld" ∧
      extractTextFromPDFRange exRangeDoc 1 3 ≠
        extractTextFromPDFRange (maskPageFailures exRangeDoc) 1 3 :=
  ⟨by decide, by decide, by decide⟩

/-! ## C3: uniform page offset of the TOC text path -/

/-- C3: whenever the TOC extractor builds chapters from parsed text lines,
there is a single offset (the computed one, or 0 on the all-entries
fallback path) such that the emitted chapters are exactly a sublist of the
parsed entries with `startPage = printedPageNumber + offset`, each
`endPage` the next chapter's adjusted start minus one, and the last
chapter ending at the document's last page. -/
theorem toc_text_uniform_offset (doc : PdfDoc) (tp : Nat) (pg : PdfPage) :
    ∃ (off : Int) (es : List TocEntry),
      List.Sublist es (parseTocEntries pg) ∧
      tocTextChapters doc tp pg =
        assemble (doc.numPages : Int)
          (es.map (fun e => ⟨e.title, (e.printed : Int) + off⟩)) ∧
      List.Chain' (fun a b => a.endPage = b.startPage - 1)
        (tocTextChapters doc tp pg) ∧
      ∀ c, (tocTextChapters doc tp pg).getLast? = some c →
        c.endPage = (doc.numPages : Int) := by
  have main : ∃ (off : Int) (es : List TocEntry),
      List.Sublist es (parseTocEntries pg) ∧
      tocTextChapters doc tp pg =
        assemble (doc.numPages : Int)
          (es.map (fun e => ⟨e.title, (e.printed : Int) + off⟩)) := by
    by_cases hfew : ((parseTocEntries pg).filter tocMainFilter).length < 3
    · refine ⟨0, parseTocEntries pg, List.Sublist.refl _, ?_⟩
      rw [tocTextChapters, if_pos hfew]
      have hmap : ∀ e ∈ parseTocEntries pg,
          (⟨e.title, (e.printed : Int) + 0⟩ : PreChapter) = ⟨e.title, (e.printed : Int)⟩ :=
        fun e _ => by simp
      rw [List.map_congr_left hmap]
    · exact ⟨computeOffset doc tp ((parseTocEntries pg).filter tocMainFilter),
        (parseTocEntries pg).filter tocMainFilter,
        List.filter_sublist _, by rw [tocTextChapters, if_neg hfew]⟩
  obtain ⟨off, es, hsub, heq⟩ := main
  refine ⟨off, es, hsub, heq, ?_, ?_⟩
  · rw [heq]; exact assemble_chain _ _
  · rw [heq]; exact assemble_getLast _ _

/-- C3 witness: the theorem instantiated on the concrete TOC page of
`exTocDoc` (its fallback path, offset 0). -/
theorem toc_text_uniform_offset_witness :
    ∃ (off : Int) (es : List TocEntry),
      List.Sublist es
        (parseTocEntries ⟨[⟨"Contents", 0, 100, 12⟩, ⟨"Alpha Beta 99", 0, 80, 12⟩], []⟩) ∧
      tocTextChapters exTocDoc 1
          ⟨[⟨"Contents", 0, 100, 12⟩, ⟨"Alpha Beta 99", 0, 80, 12⟩], []⟩ =
        assemble (exTocDoc.numPages : Int)
          (es.map (fun e => ⟨e.title, (e.printed : Int) + off⟩)) ∧
      List.Chain' (fun a b => a.endPage = b.startPage - 1)
        (tocTextChapters exTocDoc 1
          ⟨[⟨"Contents", 0, 100, 12⟩, ⟨"Alpha Beta 99", 0, 80, 12⟩], []⟩) ∧
      ∀ c, (tocTextChapters exTocDoc 1
          ⟨[⟨"Contents", 0, 100, 12⟩, ⟨"Alpha Beta 99", 0, 80, 12⟩], []⟩).getLast? =
          some c → c.endPage = (exTocDoc.numPages : Int) :=
  toc_text_uniform_offset exTocDoc 1
    ⟨[⟨"Contents", 0, 100, 12⟩, ⟨"Alpha Beta 99", 0, 80, 12⟩], []⟩

/-! ## C4: stage order, short-circuiting and the terminal fallback -/

/-- C4: discovery invokes the stages outline (0), TOC (1), content (2),
fallback (3) in that fixed order, stopping at the first stage whose result
is non-empty; all earlier stages returned null or empty, no later stage is
invoked, the fallback (reached only when stages 0-2 all came back empty)
yields exactly one chapter "Full Document" spanning pages 1..numPages, and
the returned list is never empty. -/
theorem parsePDF_priority (ct : String → String) (doc : PdfDoc) :
    ∃ k, k ≤ 3 ∧
      invokedStages ct doc = List.range (k + 1) ∧
      (∀ j, j < k → stageResultEmpty (stageRun ct doc j) = true) ∧
      stageResultEmpty (stageRun ct doc k) = false ∧
      parsePDF ct doc = (stageRun ct doc k).getD [] ∧
      (k = 3 → parsePDF ct doc = [⟨"Full Document", 1, (doc.numPages : Int)⟩]) ∧
      parsePDF ct doc ≠ [] := by
  by_cases h0 : stageResultEmpty (stageRun ct doc 0) = true
  · by_cases h1 : stageResultEmpty (stageRun ct doc 1) = true
    · by_cases h2 : stageResultEmpty (stageRun ct doc 2) = true
      · refine ⟨3, le_refl 3, ?_, ?_, ?_, ?_, ?_, ?_⟩
        · simp only [invokedStages, h0, h1, h2, if_true]
          decide
        · intro j hj
          interval_cases j <;> assumption
        · rfl
        · have hp : parsePDF ct doc = createPageBasedChapters doc.numPages := by
            have e0 : stageResultEmpty (extractChaptersFromOutline doc) = true := h0
            have e1 : stageResultEmpty (extractChaptersFromTOC ct doc) = true := h1
            have e2 : stageResultEmpty (some (detectChaptersFromContent doc)) = true := h2
            simp only [parsePDF, e0, e1, e2, if_true]
            rfl
          rw [hp]; rfl
        · intro _
          have e0 : stageResultEmpty (extractChaptersFromOutline doc) = true := h0
          have e1 : stageResultEmpty (extractChaptersFromTOC ct doc) = true := h1
          have e2 : stageResultEmpty (some (detectChaptersFromContent doc)) = true := h2
          simp only [parsePDF, e0, e1, e2, if_true]
          rfl
        · have e0 : stageResultEmpty (extractChaptersFromOutline doc) = true := h0
          have e1 : stageResultEmpty (extractChaptersFromTOC ct doc) = true := h1
          have e2 : stageResultEmpty (some (detectChaptersFromContent doc)) = true := h2
          simp only [parsePDF, e0, e1, e2, if_true]
          simp [createPageBasedChapters]
      · refine ⟨2, by omega, ?_, ?_, ?_, ?_, ?_, ?_⟩
        · simp only [invokedStages, h0, h1, if_true]
          rw [if_neg h2]
          decide
        · intro j hj
          interval_cases j <;> assumption
        · exact eq_false_of_ne_true h2
        · have e0 : stageResultEmpty (extractChaptersFromOutline doc) = true := h0
          have e1 : stageResultEmpty (extractChaptersFromTOC ct doc) = true := h1
          have e2 : stageResultEmpty (some (detectChaptersFromContent doc)) = false :=
            eq_false_of_ne_true h2
          simp only [parsePDF, e0, e1, e2, if_true, Bool.false_eq_true, if_false]
          rfl
        · intro h3; omega
        · have e0 : stageResultEmpty (extractChaptersFromOutline doc) = true := h0
          have e1 : stageResultEmpty (extractChaptersFromTOC ct doc) = true := h1
          have e2 : stageResultEmpty (some (detectChaptersFromContent doc)) = false :=
            eq_false_of_ne_true h2
          simp only [parsePDF, e0, e1, e2, if_true, Bool.false_eq_true, if_false]
          have := eq_false_of_ne_true h2
          simp only [stageResultEmpty, Option.getD_some, List.isEmpty_eq_false] at this
          simpa using this
    · refine ⟨1, by omega, ?_, ?_, ?_, ?_, ?_, ?_⟩
      · simp only [invokedStages, h0, if_true]
        rw [if_neg h1]
        decide
      · intro j hj
        interval_cases j
        assumption
      · exact eq_false_of_ne_true h1
      · have e0 : stageResultEmpty (extractChaptersFromOutline doc) = true := h0
        have e1 : stageResultEmpty (extractChaptersFromTOC ct doc) = false :=
          eq_false_of_ne_true h1
        simp only [parsePDF, e0, e1, if_true, Bool.false_eq_true, if_false]
        rfl
      · intro h3; omega
      · have e0 : stageResultEmpty (extractChaptersFromOutline doc) = true := h0
        have e1 : stageResultEmpty (extractChaptersFromTOC ct doc) = false :=
          eq_false_of_ne_true h1
        simp only [parsePDF, e0, e1, if_true, Bool.false_eq_true, if_false]
        simp only [stageResultEmpty] at e1
        intro hnil
        rw [hnil] at e1
        simp at e1
  · refine ⟨0, by omega, ?_, ?_, ?_, ?_, ?_, ?_⟩
    · simp only [invokedStages]
      rw [if_neg h0]
      decide
    · intro j hj; omega
    · exact eq_false_of_ne_true h0
    · have e0 : stageResultEmpty (extractChaptersFromOutline doc) = false :=
        eq_false_of_ne_true h0
      simp only [parsePDF, e0, Bool.false_eq_true, if_false]
      rfl
    · intro h3; omega
    · have e0 : stageResultEmpty (extractChaptersFromOutline doc) = false :=
        eq_false_of_ne_true h0
      simp only [parsePDF, e0, Bool.false_eq_true, if_false]
      simp only [stageResultEmpty] at e0
      intro hnil
      rw [hnil] at e0
      simp at e0

/-! ## C5: outline main-chapter classification -/

/-- C5: outline classification follows the priority rule — with any
`Chapter <n>` title present only such titles (or canonical section names)
classify; else with any `<int>.<int>` title present, level-0 items or bare
numbered titles classify; else level-0 items classify — and the chapters
returned are exactly the classified items paired with their successors.
In particular the outline `["Chapter 1", "1.1 Setup", "Chapter 2"]` at
levels `[0, 1, 0]` yields exactly the two chapters `Chapter 1` (pages
1-4) and `Chapter 2` (pages 5-10). -/
theorem outline_classification (doc : PdfDoc)
    (h : (sortedOutlineItems doc).filter (outlineMainPred (sortedOutlineItems doc)) ≠ []) :
    (∀ it, outlineMainPred (sortedOutlineItems doc) it =
      ((if hasNumericChapters (sortedOutlineItems doc) then matchChapterCI it.title
        else if hasNumericSections (sortedOutlineItems doc) then
          (it.level == 0 || (matchBareNum it.title && !startsSubsec it.title))
        else it.level == 0) || isSpecialSection it.title)) ∧
    extractChaptersFromOutline doc =
      some (assemble (doc.numPages : Int)
        (((sortedOutlineItems doc).filter
            (outlineMainPred (sortedOutlineItems doc))).map
          (fun it => ⟨it.title, (it.pageNumber : Int)⟩))) ∧
    extractChaptersFromOutline exOutlineDoc =
      some [⟨"Chapter 1", 1, 4⟩, ⟨"Chapter 2", 5, 10⟩] := by
  refine ⟨fun it => rfl, ?_, by decide⟩
  have houtline : ¬ (doc.outline.isEmpty = true) := by
    intro hbe
    apply h
    rw [sortedOutlineItems, List.isEmpty_iff.mp hbe]
    rfl
  have hmains : ¬ ((buildMainChapters (outlineMainPred (sortedOutlineItems doc))
      (doc.numPages : Int) (sortedOutlineItems doc)).isEmpty = true) := by
    rw [buildMainChapters_eq]
    intro hbe
    apply h
    exact List.map_eq_nil_iff.mp ((assemble_eq_nil_iff _ _).mp (List.isEmpty_iff.mp hbe))
  rw [extractChaptersFromOutline, if_neg houtline, if_neg hmains, buildMainChapters_eq]

/-- C5 witness: the classification theorem applied to the concrete outline
document of the example. -/
theorem outline_classification_witness :
    (∀ it, outlineMainPred (sortedOutlineItems exOutlineDoc) it =
      ((if hasNumericChapters (sortedOutlineItems exOutlineDoc) then matchChapterCI it.title
        else if hasNumericSections (sortedOutlineItems exOutlineDoc) then
          (it.level == 0 || (matchBareNum it.title && !startsSubsec it.title))
        else it.level == 0) || isSpecialSection it.title)) ∧
    extractChaptersFromOutline exOutlineDoc =
      some (assemble (exOutlineDoc.numPages : Int)
        (((sortedOutlineItems exOutlineDoc).filter
            (outlineMainPred (sortedOutlineItems exOutlineDoc))).map
          (fun it => ⟨it.title, (it.pageNumber : Int)⟩))) ∧
    extractChaptersFromOutline exOutlineDoc =
      some [⟨"Chapter 1", 1, 4⟩, ⟨"Chapter 2", 5, 10⟩] :=
  outline_classification exOutlineDoc (by decide)

/-! ## C6: EPUB spine resolution -/

/-- C6: for every EPUB package, the chapter loop returns exactly one
chapter per spine item whose (first) manifest entry has media-type
`application/xhtml+xml`, in spine order — the hrefs are precisely the
spine's resolved XHTML items, and spine items of any other media-type are
absent. -/
theorem epub_spine_resolution (titleOf : String → Nat → String)
    (manifest : List ManifestItem) (opfDir : String) (spine : List String) (n : Nat) :
    (epubChapters titleOf manifest opfDir spine n).map EpubChapter.href =
      spine.filterMap (resolveSpineItem manifest opfDir) ∧
    (epubChapters titleOf manifest opfDir spine n).length =
      (spine.filterMap (resolveSpineItem manifest opfDir)).length := by
  have main : ∀ (sp : List String) (m : Nat),
      (epubChapters titleOf manifest opfDir sp m).map EpubChapter.href =
        sp.filterMap (resolveSpineItem manifest opfDir) := by
    intro sp
    induction sp with
    | nil => intro m; rfl
    | cons idref rest ih =>
        intro m
        cases hfind : manifest.find? (fun it => it.id == idref) with
        | none =>
            rw [show epubChapters titleOf manifest opfDir (idref :: rest) m =
                epubChapters titleOf manifest opfDir rest m by
                rw [epubChapters, hfind],
              List.filterMap_cons,
              show resolveSpineItem manifest opfDir idref = none by
                rw [resolveSpineItem, hfind]]
            exact ih m
        | some it =>
            by_cases hmt : (it.mediaType == "application/xhtml+xml") = true
            · rw [show epubChapters titleOf manifest opfDir (idref :: rest) m =
                  ⟨titleOf (opfDir ++ it.href) (m + 1), opfDir ++ it.href⟩ ::
                    epubChapters titleOf manifest opfDir rest (m + 1) by
                  rw [epubChapters, hfind]
                  exact if_pos hmt,
                List.filterMap_cons,
                show resolveSpineItem manifest opfDir idref = some (opfDir ++ it.href) by
                  rw [resolveSpineItem, hfind]
                  exact if_pos hmt,
                List.map_cons, ih (m + 1)]
            · rw [show epubChapters titleOf manifest opfDir (idref :: rest) m =
                  epubChapters titleOf manifest opfDir rest m by
                  rw [epubChapters, hfind]
                  exact if_neg hmt,
                List.filterMap_cons,
                show resolveSpineItem manifest opfDir idref = none by
                  rw [resolveSpineItem, hfind]
                  exact if_neg hmt]
              exact ih m
  exact ⟨main spine n, by rw [← main spine n, List.length_map]⟩

/-! ## C7: the TOC-page scan -/

/-- `find?` over a contiguous number range returns the first satisfying
number: nothing earlier in the range satisfies the predicate. -/
theorem find?_range'_first (p : Nat → Bool) :
    ∀ (start len x : Nat), (List.range' start len).find? p = some x →
      p x = true ∧ start ≤ x ∧ x < start + len ∧
        ∀ q, start ≤ q → q < x → p q = false := by
  intro start len
  induction len generalizing start with
  | zero => intro x hx; simp [List.range'] at hx
  | succ m ih =>
      intro x hx
      rw [List.range'_succ] at hx
      by_cases hp : p start
      · rw [List.find?_cons_of_pos _ hp] at hx
        obtain rfl : start = x := Option.some.inj hx
        exact ⟨hp, le_refl _, by omega, fun q h1 h2 => absurd h1 (by omega)⟩
      · rw [List.find?_cons_of_neg _ hp] at hx
        obtain ⟨hpx, h1, h2, h3⟩ := ih (start + 1) x hx
        refine ⟨hpx, by omega, by omega, ?_⟩
        intro q hq1 hq2
        rcases Nat.eq_or_lt_of_le hq1 with rfl | hq3
        · exact eq_false_of_ne_true hp
        · exact h3 q hq3 hq2

/-- `find?` only looks at predicate values on the list. -/
theorem find?_congr_pred (p q : α → Bool) (l : List α)
    (h : ∀ x ∈ l, p x = q x) : l.find? p = l.find? q := by
  induction l with
  | nil => rfl
  | cons a rest ih =>
      have ha := h a (List.mem_cons_self a rest)
      by_cases hp : p a
      · rw [List.find?_cons_of_pos _ hp, List.find?_cons_of_pos _ (ha ▸ hp)]
      · rw [List.find?_cons_of_neg _ hp, List.find?_cons_of_neg _ (ha ▸ hp)]
        exact ih (fun x hx => h x (List.mem_cons_of_mem a hx))

/-- C7 (amended): the TOC scan inspects at most the first
`min(20, numPages)` pages — truncating the document to its first 20 pages
does not change the result — and stops at the first page whose lowercased
joined text contains "table of contents", the substring "contents"
anywhere (not only as a standalone line), or "índice"; when no inspected
page matches, the scan and the whole TOC extractor return null. -/
theorem toc_scan_first_match (ct : String → String) (doc : PdfDoc) :
    (∀ tp, findTocPage doc = some tp →
      pageHasTocIndicator doc tp = true ∧ 1 ≤ tp ∧ tp ≤ min 20 doc.numPages ∧
        ∀ q, 1 ≤ q → q < tp → pageHasTocIndicator doc q = false) ∧
    (findTocPage doc = none →
      ∀ q, 1 ≤ q → q ≤ min 20 doc.numPages → pageHasTocIndicator doc q = false) ∧
    (findTocPage doc = none → extractChaptersFromTOC ct doc = none) ∧
    findTocPage doc = findTocPage ⟨doc.pages.take 20, doc.outline⟩ := by
  refine ⟨?_, ?_, ?_, ?_⟩
  · intro tp htp
    obtain ⟨h1, h2, h3, h4⟩ := find?_range'_first (pageHasTocIndicator doc) 1 _ tp htp
    exact ⟨h1, h2, by omega, h4⟩
  · intro hnone q hq1 hq2
    have := List.find?_eq_none.mp hnone q (List.mem_range'_1.mpr ⟨hq1, by omega⟩)
    exact eq_false_of_ne_true (fun he => this (by rw [he]))
  · intro hnone
    rw [extractChaptersFromTOC, hnone]
  · rw [findTocPage, findTocPage]
    have hlen : (⟨doc.pages.take 20, doc.outline⟩ : PdfDoc).numPages =
        min 20 doc.numPages := by
      rw [PdfDoc.numPages, PdfDoc.numPages]
      exact List.length_take 20 doc.pages
    rw [hlen, show min 20 (min 20 doc.numPages) = min 20 doc.numPages by omega]
    refine find?_congr_pred _ _ _ ?_
    intro x hx
    obtain ⟨hx1, hx2⟩ := List.mem_range'_1.mp hx
    rw [pageHasTocIndicator, pageHasTocIndicator]
    have hget : doc.getPage x = (⟨doc.pages.take 20, doc.outline⟩ : PdfDoc).getPage x := by
      rw [PdfDoc.getPage, PdfDoc.getPage]
      have : (doc.pages.take 20).getD (x - 1) none = doc.pages.getD (x - 1) none := by
        rw [List.getD_eq_getElem?_getD, List.getD_eq_getElem?_getD,
          List.getElem?_take_of_lt (show x - 1 < 20 by omega)]
      rw [this]
    rw [hget]

/-- C7 counterexample: a page whose text merely mentions the word
"contents" — no spec indicator at all — is identified as the TOC page, and
the extractor then returns an empty chapter list instead of null. -/
theorem toc_indicator_counterexample :
    specTocIndicator
      (pageIndicatorText ⟨[⟨"shipping contents inventory", 0, 0, 12⟩], []⟩) = false ∧
    findTocPage exContentsDoc = some 1 ∧
    extractChaptersFromTOC (fun s => s) exContentsDoc = some [] :=
  ⟨by decide, by decide, by decide⟩

/-! ## C8: content-heuristic dedup token extraction -/

/-- C8 (code behaviour at the failing input): the chapter-number token the
search `/(\d+|[IVXLCDM]+)/` extracts from a `Chapter <n>` match is the
letter "C" of the word "Chapter" itself (C is in the roman-numeral class
and precedes the digits), so the two distinct headings `Chapter 1` and
`Chapter 2` share the token "C" and the detector emits only the first as a
chapter — contradicting the intended per-chapter deduplication. -/
theorem content_dedup_token_collision :
    detectChaptersFromContent exChapterPagesDoc = [⟨"Chapter 1", 1, 2⟩] ∧
    firstToken "Chapter 1".toList = some "C" ∧
    firstToken "Chapter 2".toList = some "C" :=
  ⟨by decide, by decide, by decide⟩

/-! ## C9: markup text extraction example -/

/-- C9: `extractTextFromHtml` on the literal content tree
`<body><h1>T</h1><p>One.</p><p>Two.</p></body>` yields exactly
`"T\n\nOne.\n\nTwo."`. -/
theorem extract_text_html_example :
    extractTextFromHtml exHtmlBody = "T\n\nOne.\n\nTwo." := by decide

/-! ## C10: the TOC link path -/

/-- The deduplicated, re-sorted link destinations are strictly ascending
by page and all titled with at least 2 characters. -/
theorem tocLinkPreChapters_sorted (ct : String → String) (doc : PdfDoc)
    (links : List LinkAnnot) (tp : Nat) :
    (tocLinkPreChapters ct doc links tp).Pairwise (fun a b => a.page < b.page) ∧
    (∀ p ∈ tocLinkPreChapters ct doc links tp, 2 ≤ p.title.length) ∧
    (∀ p ∈ tocLinkPreChapters ct doc links tp,
      p ∈ processLinks ct doc tp links 0) := by
  have hS1 : (sortByKey (fun p => p.page)
      (processLinks ct doc tp links 0)).Pairwise (fun a b => a.page ≤ b.page) :=
    sortByKey_pairwise _ _
  have hDsub := dedupByPage_sublist []
    (sortByKey (fun p => p.page) (processLinks ct doc tp links 0))
  have hDle : (dedupByPage [] (sortByKey (fun p => p.page)
      (processLinks ct doc tp links 0))).Pairwise (fun a b => a.page ≤ b.page) :=
    hS1.sublist hDsub
  have hDnodup := (dedupByPage_pages []
    (sortByKey (fun p => p.page) (processLinks ct doc tp links 0))).2
  have hDne : (dedupByPage [] (sortByKey (fun p => p.page)
      (processLinks ct doc tp links 0))).Pairwise (fun a b => a.page ≠ b.page) :=
    List.pairwise_map.mp hDnodup
  have hDlt : (dedupByPage [] (sortByKey (fun p => p.page)
      (processLinks ct doc tp links 0))).Pairwise (fun a b => a.page < b.page) :=
    (hDle.and hDne).imp (fun h => lt_of_le_of_ne h.1 h.2)
  have hfix : tocLinkPreChapters ct doc links tp =
      dedupByPage [] (sortByKey (fun p => p.page) (processLinks ct doc tp links 0)) := by
    rw [tocLinkPreChapters]
    exact sortByKey_eq_self _ _ hDle
  refine ⟨hfix ▸ hDlt, ?_, ?_⟩
  · intro p hp
    rw [hfix] at hp
    exact dedupByPage_title _ _ p hp
  · intro p hp
    rw [hfix] at hp
    exact (mem_sortByKey _ p _).mp (hDsub.subset hp)

/-- C10: when the identified TOC page carries clickable link annotations
with destinations, the TOC extractor takes the link path instead of
parsing text lines; any chapter list it returns starts on strictly
increasing pages (so at most one chapter per start page), every chapter
starts at a link's resolved destination page with no printed-page offset
applied, and is titled by the (cleaned) text overlapping the link's
rectangle — or a generic `Section n` when that text is shorter than 2
characters. -/
theorem toc_links_path (ct : String → String) (doc : PdfDoc) (tp : Nat)
    (pg : PdfPage) (h1 : findTocPage doc = some tp) (h2 : doc.getPage tp = some pg)
    (h3 : 0 < (tocLinkAnnots pg).length) :
    extractChaptersFromTOC ct doc =
      extractChaptersFromTOCLinks ct doc (tocLinkAnnots pg) tp ∧
    ∀ chs, extractChaptersFromTOCLinks ct doc (tocLinkAnnots pg) tp = some chs →
      List.Pairwise (fun a b => a.startPage < b.startPage) chs ∧
      ∀ c ∈ chs, 2 ≤ c.title.length ∧
        ∃ a ∈ tocLinkAnnots pg, resolveLink a = some c.startPage ∧
          ((2 ≤ (getTextNearRect ct doc tp a.rect).length ∧
              c.title = getTextNearRect ct doc tp a.rect) ∨
            ((getTextNearRect ct doc tp a.rect).length < 2 ∧
              ∃ k : Nat, c.title = "Section " ++ toString k)) := by
  constructor
  · simp only [extractChaptersFromTOC, h1, h2]
    rw [if_pos h3]
  · intro chs hchs
    rw [extractChaptersFromTOCLinks] at hchs
    split_ifs at hchs with hemp
    obtain rfl := (Option.some.inj hchs).symm
    obtain ⟨hlt, htitle, hproc⟩ := tocLinkPreChapters_sorted ct doc (tocLinkAnnots pg) tp
    constructor
    · have hmap : ((assemble (doc.numPages : Int)
          (tocLinkPreChapters ct doc (tocLinkAnnots pg) tp)).map
          Chapter.startPage).Pairwise (fun a b => a < b) := by
        rw [assemble_map_start]
        exact List.pairwise_map.mpr hlt
      exact List.pairwise_map.mp hmap
    · intro c hc
      obtain ⟨p, hp, hct, hcs⟩ := assemble_mem _ _ c hc
      obtain ⟨a, ha, hres, htit⟩ := processLinks_mem ct doc tp (tocLinkAnnots pg) 0 p
        (hproc p hp)
      refine ⟨by rw [hct]; exact htitle p hp, a, ha, by rw [hcs]; exact hres, ?_⟩
      rcases htit with ⟨hl, he⟩ | ⟨hl, k, he⟩
      · exact Or.inl ⟨hl, by rw [hct, he]⟩
      · exact Or.inr ⟨hl, k, by rw [hct, he]⟩

/-- C10 witness: the link-path theorem applied to `exLinksDoc`, whose TOC
page carries two resolvable links. -/
theorem toc_links_path_witness :
    (extractChaptersFromTOC (fun s => s) exLinksDoc =
      extractChaptersFromTOCLinks (fun s => s) exLinksDoc
        (tocLinkAnnots ⟨[⟨"Contents", 0, 100, 12⟩, ⟨"Intro", 0, 80, 12⟩],
          [⟨true, some (some 1), none, (0, 75, 50, 85)⟩,
           ⟨true, some (some 3), none, (0, 95, 50, 105)⟩]⟩) 1) ∧
    ∀ chs, extractChaptersFromTOCLinks (fun s => s) exLinksDoc
        (tocLinkAnnots ⟨[⟨"Contents", 0, 100, 12⟩, ⟨"Intro", 0, 80, 12⟩],
          [⟨true, some (some 1), none, (0, 75, 50, 85)⟩,
           ⟨true, some (some 3), none, (0, 95, 50, 105)⟩]⟩) 1 = some chs →
      List.Pairwise (fun a b => a.startPage < b.startPage) chs ∧
      ∀ c ∈ chs, 2 ≤ c.title.length ∧
        ∃ a ∈ tocLinkAnnots ⟨[⟨"Contents", 0, 100, 12⟩, ⟨"Intro", 0, 80, 12⟩],
            [⟨true, some (some 1), none, (0, 75, 50, 85)⟩,
             ⟨true, some (some 3), none, (0, 95, 50, 105)⟩]⟩,
          resolveLink a = some c.startPage ∧
          ((2 ≤ (getTextNearRect (fun s => s) exLinksDoc 1 a.rect).length ∧
              c.title = getTextNearRect (fun s => s) exLinksDoc 1 a.rect) ∨
            ((getTextNearRect (fun s => s) exLinksDoc 1 a.rect).length < 2 ∧
              ∃ k : Nat, c.title = "Section " ++ toString k)) :=
  toc_links_path (fun s => s) exLinksDoc 1
    ⟨[⟨"Contents", 0, 100, 12⟩, ⟨"Intro", 0, 80, 12⟩],
      [⟨true, some (some 1), none, (0, 75, 50, 85)⟩,
       ⟨true, some (some 3), none, (0, 95, 50, 105)⟩]⟩
    (by decide) (by decide) (by decide)
